import Mathlib

/-!
Verification of the StreamFlow stream-checker orchestration core.

This file gives a shallow embedding, in Lean, of the scheduling, tracking,
scoring and parsing logic of `backend/stream_checker_service.py` and
`backend/stream_check_utils.py`, and proves (or refutes) the specified
properties of that code.

Python data is modelled as follows: Python `set` objects become `List Int`
with insert-if-absent semantics, dictionaries (which preserve insertion
order) become association lists `List (key × value)` updated in place,
floats become `ℚ` (the arithmetic in scope here is exact in both), and
`None`-able values become `Option`.
-/

namespace StreamFlow

/-! ## Work Queue: class `StreamCheckQueue`

The Python class stores entries in `queue.Queue(maxsize=max_size)` — a plain
FIFO queue — as tuples `(priority, channel_id)`, and tracks membership with
three sets `queued`, `in_progress`, `completed` plus a `failed` map.
-/

/-- Membership test of the `List Int` model of a Python set. -/
def setMem (l : List Int) (x : Int) : Bool := l.contains x

/-- Insertion into the `List Int` model of a Python set. -/
def setInsert (l : List Int) (x : Int) : List Int :=
  if l.contains x then l else l ++ [x]

/-- Removal (`set.discard`) from the `List Int` model of a Python set. -/
def setDiscard (l : List Int) (x : Int) : List Int :=
  l.filter (fun y => y ≠ x)

/-- State of `StreamCheckQueue`: the FIFO list of `(priority, channel_id)`
entries held by `queue.Queue`, the three membership sets, the failed set,
and the mutable statistics the methods touch. -/
structure QueueState where
  items : List (Int × Int)
  maxSize : Int
  queued : List Int
  inProgress : List Int
  completed : List Int
  failed : List Int
  totalQueued : Nat
  totalCompleted : Nat
  totalFailed : Nat
  currentChannel : Option Int
  queueSizeStat : Nat
  deriving Repr, DecidableEq

/-- The state built by `StreamCheckQueue.__init__(max_size)`. -/
def QueueState.init (maxSize : Int) : QueueState :=
  { items := [], maxSize := maxSize, queued := [], inProgress := [],
    completed := [], failed := [], totalQueued := 0, totalCompleted := 0,
    totalFailed := 0, currentChannel := none, queueSizeStat := 0 }

/-- A `queue.Queue(maxsize)` rejects a non-blocking `put` exactly when
`maxsize` is positive and the queue already holds `maxsize` items. -/
def QueueState.isFull (s : QueueState) : Bool :=
  0 < s.maxSize && s.maxSize ≤ (s.items.length : Int)

/-- Embedding of `StreamCheckQueue.add_channel`: if the id is in none of the
three membership sets, append `(priority, channel_id)` to the FIFO queue
(failing without mutation when the queue is full) and record it as queued;
otherwise fall through and return `False` with no state change. -/
def addChannel (s : QueueState) (channelId : Int) (priority : Int) :
    Bool × QueueState :=
  if ¬ setMem s.queued channelId ∧ ¬ setMem s.inProgress channelId ∧
      ¬ setMem s.completed channelId then
    if s.isFull then
      (false, s)
    else
      (true,
        { s with
          items := s.items ++ [(priority, channelId)],
          queued := setInsert s.queued channelId,
          totalQueued := s.totalQueued + 1,
          queueSizeStat := s.items.length + 1 })
  else
    (false, s)

/-- Embedding of `StreamCheckQueue.get_next_channel`: `queue.Queue.get`
returns the oldest inserted entry (FIFO); the id moves from `queued` to
`in_progress`. An empty queue yields `none` (the Python `queue.Empty`
branch). -/
def getNextChannel (s : QueueState) : Option Int × QueueState :=
  match s.items with
  | [] => (none, s)
  | (_, channelId) :: rest =>
      (some channelId,
        { s with
          items := rest,
          queued := setDiscard s.queued channelId,
          inProgress := setInsert s.inProgress channelId,
          currentChannel := some channelId,
          queueSizeStat := rest.length })

/-- Embedding of `StreamCheckQueue.add_channels`: add each id in order,
counting the successful additions. -/
def addChannels (s : QueueState) (channelIds : List Int) (priority : Int) :
    Nat × QueueState :=
  channelIds.foldl
    (fun (acc : Nat × QueueState) cid =>
      let r := addChannel acc.2 cid priority
      (if r.1 then acc.1 + 1 else acc.1, r.2))
    (0, s)

/-! ## Update Tracker: class `ChannelUpdateTracker`

The tracker state `self.updates['channels']` is a Python dict keyed by
`str(channel_id)` (an injective image of the id, so the model keys by the
id itself) whose values are dicts with optional keys `last_update`,
`last_check`, `needs_check`, `force_check`, `stream_count`,
`checked_stream_ids`, `queued_at`. Dicts preserve insertion order, so the
map is an association list and in-place updates keep the position. -/

/-- One per-channel tracker record. A field holds `none` exactly when the
corresponding dict key is absent; `streamCount` can also store a present
Python `None` (hence `Option (Option Int)`). -/
structure TrackerEntry where
  lastUpdate : Option String := none
  lastCheck : Option String := none
  needsCheck : Option Bool := none
  forceCheck : Option Bool := none
  streamCount : Option (Option Int) := none
  checkedStreamIds : Option (List Int) := none
  queuedAt : Option String := none
  deriving Repr, DecidableEq

/-- The `channels` dict, in insertion order. -/
abbrev TrackerMap := List (Int × TrackerEntry)

/-- First binding of a key in an association list (Python dict lookup). -/
def alookup (k : Int) : TrackerMap → Option TrackerEntry
  | [] => none
  | (k', e) :: rest => if k' = k then some e else alookup k rest

/-- Integer-valued association-list lookup, for the `stream_counts` dict
passed to `mark_channels_updated`. -/
def alookupInt (k : Int) : List (Int × Int) → Option Int
  | [] => none
  | (k', v) :: rest => if k' = k then some v else alookupInt k rest

/-- Dict assignment `d[k] = e`: replace the binding in place if the key
exists (dict keys are unique, so the first match is the binding), else
append the new binding at the end. -/
def setEntry : TrackerMap → Int → TrackerEntry → TrackerMap
  | [], k, e => [(k, e)]
  | (k', e') :: rest, k, e =>
      if k' = k then (k, e) :: rest else (k', e') :: setEntry rest k e

/-- The replacement record written by `mark_channel_updated` and
`mark_channels_updated`: exactly the keys `last_update`, `needs_check`,
`stream_count` and `checked_stream_ids` (the latter preserved from the old
entry with default `[]`); every other key of the old entry is dropped. -/
def updatedEntry (ts : String) (streamCount : Option Int)
    (old : Option TrackerEntry) : TrackerEntry :=
  { lastUpdate := some ts,
    needsCheck := some true,
    streamCount := some streamCount,
    checkedStreamIds := some ((old.map
      (fun e => e.checkedStreamIds.getD [])).getD []) }

/-- Embedding of `ChannelUpdateTracker.mark_channel_updated`. -/
def markChannelUpdated (m : TrackerMap) (cid : Int) (ts : String)
    (streamCount : Option Int) : TrackerMap :=
  setEntry m cid (updatedEntry ts streamCount (alookup cid m))

/-- Embedding of `ChannelUpdateTracker.mark_channels_updated`: each id in
order receives the same replacement as `mark_channel_updated`, with its
stream count looked up in the `stream_counts` dict. -/
def markChannelsUpdated (m : TrackerMap) (cids : List Int) (ts : String)
    (counts : List (Int × Int)) : TrackerMap :=
  cids.foldl (fun acc cid => markChannelUpdated acc cid ts (alookupInt cid counts)) m

/-- Embedding of `ChannelUpdateTracker.should_force_check`: the stored
`force_check` value with default `False`, or `False` when the channel is
not tracked. -/
def shouldForceCheck (m : TrackerMap) (cid : Int) : Bool :=
  match alookup cid m with
  | some e => e.forceCheck.getD false
  | none => false

/-- The `needs_check` flag of a channel, with the dict defaults of the
source (`info.get('needs_check', False)`, untracked channels excluded). -/
def needsCheckFlag (m : TrackerMap) (k : Int) : Bool :=
  match alookup k m with
  | some e => e.needsCheck.getD false
  | none => false

/-- Loop-break test of `get_and_clear_channels_needing_check`: Python
`if max_channels and len(channels) >= max_channels` — `None` and `0` are
falsy, so they disable the cap. -/
def breakAfter (max : Option Int) (n : Nat) : Bool :=
  match max with
  | none => false
  | some mx => mx ≠ 0 && mx ≤ (n : Int)

/-- The scan of `get_and_clear_channels_needing_check` over the `channels`
dict in insertion order: collect each flagged id, clear its flag and stamp
`queued_at` in place, and stop early once the cap is reached. `cnt` is the
number of ids collected before this suffix. -/
def getAndClearGo (ts : String) (max : Option Int) (cnt : Nat) :
    List (Int × TrackerEntry) → List Int × List (Int × TrackerEntry)
  | [] => ([], [])
  | (k, e) :: rest =>
      if e.needsCheck.getD false then
        let e' := { e with needsCheck := some false, queuedAt := some ts }
        if breakAfter max (cnt + 1) then
          ([k], (k, e') :: rest)
        else
          let r := getAndClearGo ts max (cnt + 1) rest
          (k :: r.1, (k, e') :: r.2)
      else
        let r := getAndClearGo ts max cnt rest
        (r.1, (k, e) :: r.2)

/-- Embedding of `ChannelUpdateTracker.get_and_clear_channels_needing_check`:
returns the collected ids and the updated map. -/
def getAndClear (m : TrackerMap) (ts : String) (max : Option Int) :
    List Int × TrackerMap :=
  getAndClearGo ts max 0 m

/-- The ids whose `needs_check` flag is true, in dict insertion order. -/
def flaggedIds (m : TrackerMap) : List Int :=
  (m.filter (fun p => p.2.needsCheck.getD false)).map Prod.fst

/-! ### Serialized traces of tracker operations

The tracker lock serializes `mark_channel(s)_updated` and
`get_and_clear_channels_needing_check`; a trace is therefore a list of
operations applied in order. -/

/-- One serialized tracker operation: a mark-updated event for a list of
channels, or one call to `get_and_clear_channels_needing_check`. -/
inductive TrackerOp where
  | mark (cids : List Int) (ts : String) (counts : List (Int × Int)) : TrackerOp
  | claimOp (ts : String) (max : Option Int) : TrackerOp

/-- Effect of one tracker operation on the `channels` map. -/
def stepOp (m : TrackerMap) : TrackerOp → TrackerMap
  | .mark cids ts counts => markChannelsUpdated m cids ts counts
  | .claimOp ts max => (getAndClear m ts max).2

/-- The `channels` map after a trace of operations. -/
def mapAfter (m : TrackerMap) (ops : List TrackerOp) : TrackerMap :=
  ops.foldl stepOp m

/-- Whether a trace element is a mark-updated event naming channel `c`. -/
def marksChannel (c : Int) : TrackerOp → Prop
  | .mark cids _ _ => c ∈ cids
  | .claimOp _ _ => False

/-- A concrete tracker entry holding a pending force-check, a last check,
and a queued stamp, used to witness the replacement effect. -/
def sampleEntry : TrackerEntry :=
  { lastUpdate := some "u0", lastCheck := some "c0",
    needsCheck := some false, forceCheck := some true,
    streamCount := some (some 4), checkedStreamIds := some [1, 2],
    queuedAt := some "q0" }

/-- A concrete one-channel tracker map. -/
def sampleTracker : TrackerMap := [(3, sampleEntry)]

/-! ## Cron gating: `StreamCheckerService._check_global_schedule`

Times are modelled in seconds (`Int`); the previous scheduled instant
computed by croniter from the validated cron expression is taken as an
input. `last_global_check` is `none` on a fresh start. -/

/-- Pipeline modes for which scheduled global actions run (the code skips
the schedule check for every other mode). -/
def globalEligibleModes : List String :=
  ["pipeline_1_5", "pipeline_2_5", "pipeline_3", "pipeline_4"]

/-- Embedding of the decision logic of `_check_global_schedule`: after the
`enabled` and pipeline-mode gates, on a fresh start the action runs exactly
when `abs((now - prev_scheduled).total_seconds() / 60) <= 10`; otherwise it
runs exactly when `prev_scheduled > last_check_time`. -/
def shouldRunGlobalAction (enabled : Bool) (mode : String)
    (now prevScheduled : Int) (lastGlobal : Option Int) : Bool :=
  if ¬ enabled then false
  else if mode ∉ globalEligibleModes then false
  else
    match lastGlobal with
    | none => decide (|(((now - prevScheduled : Int) : ℚ)) / 60| ≤ 10)
    | some lc => decide (prevScheduled > lc)

/-! ## Configuration merging: class `StreamCheckConfig`

`_load_config` merges a parsed config file into a deep copy of
`DEFAULT_CONFIG` with `dict.update` — a shallow, top-level-only merge —
while the runtime `update` method applies a recursive `deep_update`. -/

/-- JSON-shaped values. -/
inductive JVal where
  | str (s : String)
  | num (q : ℚ)
  | bool (b : Bool)
  | null
  | arr (elems : List JVal)
  | obj (fields : List (String × JVal))

/-- Dict lookup in a JSON object. -/
def olookup (k : String) : List (String × JVal) → Option JVal
  | [] => none
  | (k', v) :: rest => if k' = k then some v else olookup k rest

/-- Dict assignment in a JSON object: replace the first binding in place,
else append. -/
def setKey : List (String × JVal) → String → JVal → List (String × JVal)
  | [], k, v => [(k, v)]
  | (k', v') :: rest, k, v =>
      if k' = k then (k, v) :: rest else (k', v') :: setKey rest k v

/-- Embedding of Python `base.update(updates)`: every top-level key of
`updates` is assigned into `base` wholesale, in order. -/
def shallowUpdate (base : List (String × JVal))
    (updates : List (String × JVal)) : List (String × JVal) :=
  updates.foldl (fun acc kv => setKey acc kv.1 kv.2) base

mutual

/-- Embedding of the nested `deep_update` helper of
`StreamCheckConfig.update`: each update key is assigned in order via
`deepAssign`. -/
def deepUpdate : List (String × JVal) → List (String × JVal) →
    List (String × JVal)
  | base, [] => base
  | base, (k, v) :: rest => deepUpdate (deepAssign base k v) rest
  termination_by _ l => (sizeOf l, 0)

/-- One assignment of `deep_update`: a dict-valued update recurses when the
current value under the key is also a dict; any other value is assigned
wholesale. -/
def deepAssign (base : List (String × JVal)) (k : String) :
    JVal → List (String × JVal)
  | .obj u => deepAssignObj base k u (olookup k base)
  | v => setKey base k v
  termination_by v => (sizeOf v, 0)

/-- Case split of `deepAssign` on the current value under the key. -/
def deepAssignObj (base : List (String × JVal)) (k : String)
    (u : List (String × JVal)) : Option JVal → List (String × JVal)
  | some (.obj b) => setKey base k (.obj (deepUpdate b u))
  | _ => setKey base k (.obj u)
  termination_by _ => (sizeOf u, 1)

end

/-- The `DEFAULT_CONFIG` dict of `StreamCheckConfig`. -/
def DEFAULT_CONFIG : List (String × JVal) :=
  [("enabled", .bool true),
   ("check_interval", .num 300),
   ("pipeline_mode", .str "pipeline_1_5"),
   ("global_check_schedule", .obj
     [("enabled", .bool true),
      ("cron_expression", .str "0 3 * * *"),
      ("frequency", .str "daily"),
      ("hour", .num 3),
      ("minute", .num 0),
      ("day_of_month", .num 1)]),
   ("stream_analysis", .obj
     [("ffmpeg_duration", .num 30),
      ("idet_frames", .num 500),
      ("timeout", .num 30),
      ("retries", .num 1),
      ("retry_delay", .num 10),
      ("user_agent", .str "VLC/3.0.14")]),
   ("scoring", .obj
     [("weights", .obj
        [("bitrate", .num (3 / 10)),
         ("resolution", .num (1 / 4)),
         ("fps", .num (3 / 20)),
         ("codec", .num (1 / 10)),
         ("errors", .num (1 / 5))]),
      ("min_score", .num 0),
      ("prefer_h265", .bool true),
      ("penalize_interlaced", .bool true),
      ("penalize_dropped_frames", .bool true)]),
   ("queue", .obj
     [("max_size", .num 1000),
      ("check_on_update", .bool true),
      ("max_channels_per_run", .num 50)])]

/-- Embedding of `_load_config` on a successfully parsed file: deep-copy
the defaults, then `config.update(loaded)`. -/
def loadConfigMerge (loaded : List (String × JVal)) : List (String × JVal) :=
  shallowUpdate DEFAULT_CONFIG loaded

/-- Embedding of the runtime `StreamCheckConfig.update`. -/
def configUpdate (cfg updates : List (String × JVal)) :
    List (String × JVal) :=
  deepUpdate cfg updates

/-! ## String helpers modelling the Python primitives used by the code:
substring membership (`in`), `str.split`, `str.strip`, `int(...)`. Strings
are handled as character lists. -/

/-- Does the second list begin with the first (pattern) list? -/
def charsBegin : List Char → List Char → Bool
  | [], _ => true
  | _ :: _, [] => false
  | a :: as, b :: bs => a = b && charsBegin as bs

/-- Python `pat in s` substring membership on character lists. -/
def charsContain (pat : List Char) : List Char → Bool
  | [] => pat.isEmpty
  | c :: rest => charsBegin pat (c :: rest) || charsContain pat rest

/-- Python `sep_char in s` and `pat in s` on strings. -/
def strContains (s pat : String) : Bool := charsContain pat.data s.data

/-- Python `s.split(sep)` for a one-character separator. -/
def splitOnChar (sep : Char) : List Char → List (List Char)
  | [] => [[]]
  | c :: rest =>
      match splitOnChar sep rest with
      | [] => [[c]]
      | h :: t => if c = sep then [] :: h :: t else (c :: h) :: t

/-- Python `str.strip()` whitespace stripping. -/
def stripList (l : List Char) : List Char :=
  ((l.dropWhile Char.isWhitespace).reverse.dropWhile Char.isWhitespace).reverse

/-- Numeric value of a decimal digit character. -/
def digitVal (c : Char) : Nat := c.toNat - '0'.toNat

/-- Value of a list of decimal digits. -/
def digitsToNat (l : List Char) : Nat :=
  l.foldl (fun acc c => acc * 10 + digitVal c) 0

/-- The digit grammar accepted by Python `int`: digits with single
underscores strictly between digits. -/
def validDigitsU (l : List Char) : Bool :=
  !l.isEmpty && l.head?.all Char.isDigit && l.getLast?.all Char.isDigit &&
    (l.zip l.tail).all (fun p => !(p.1 = '_' && p.2 = '_')) &&
    l.all (fun c => c.isDigit || c = '_')

/-- Python `int(s)` on a character list: strip whitespace, optional sign,
underscore-grouped digits; `none` models the `ValueError`. -/
def pythonIntOfChars (l0 : List Char) : Option Int :=
  let l := stripList l0
  match l with
  | '+' :: rest =>
      if validDigitsU rest then
        some ((digitsToNat (rest.filter (fun c => c ≠ '_')) : Int))
      else none
  | '-' :: rest =>
      if validDigitsU rest then
        some (-((digitsToNat (rest.filter (fun c => c ≠ '_'))) : Int))
      else none
  | rest =>
      if validDigitsU rest then
        some ((digitsToNat (rest.filter (fun c => c ≠ '_')) : Int))
      else none

/-- Python `int(s)` on a string. -/
def pythonInt (s : String) : Option Int := pythonIntOfChars s.data

/-- Lower-casing a string character-wise (Python `str.lower` on ASCII). -/
def strLower (s : String) : String := ⟨s.data.map Char.toLower⟩

/-! ## Liveness classification and scoring:
`StreamCheckerService._is_stream_dead` and `_calculate_stream_score` -/

/-- A value stored under `bitrate_kbps`: a number, Python `None`, or the
string `N/A`. -/
inductive BVal where
  | num (q : ℚ)
  | null
  | na
  deriving DecidableEq

/-- The analyzed-stream dict fields consulted by liveness classification
and scoring. A `none` field models an absent dict key. -/
structure StreamData where
  resolution : Option String := none
  bitrate_kbps : Option BVal := none
  fps : Option ℚ := none
  video_codec : Option String := none
  status : Option String := none
  err_decode : Bool := false
  err_discontinuity : Bool := false
  err_timeout : Bool := false
  interlaced_status : Option String := none
  frames_dropped : Option ℚ := none
  frames_decoded : Option ℚ := none

/-- Embedding of `_is_stream_dead`: dead when the resolution is exactly
`0x0` or parses as `WxH` with a zero dimension, or when the bitrate is
absent, `0`, `None` or `N/A`. -/
def isStreamDead (sd : StreamData) : Bool :=
  let resolution := sd.resolution.getD ""
  let deadByRes : Bool :=
    if resolution ≠ "" ∧ resolution ≠ "N/A" then
      if resolution = "0x0" then true
      else if strContains resolution "x" then
        match splitOnChar 'x' resolution.data with
        | [w, h] =>
            match pythonIntOfChars w, pythonIntOfChars h with
            | some wv, some hv => wv = 0 || hv = 0
            | _, _ => false
        | _ => false
      else false
    else false
  if deadByRes then true
  else
    match sd.bitrate_kbps with
    | none => true
    | some .null => true
    | some .na => true
    | some (.num q) => q = 0

/-- The scoring weights and flags read from configuration; a `none` weight
models an absent `weights` key (the code then uses the written default). -/
structure ScoringConfig where
  wBitrate : Option ℚ := none
  wResolution : Option ℚ := none
  wFps : Option ℚ := none
  wCodec : Option ℚ := none
  wErrors : Option ℚ := none
  preferH265 : Bool := true
  penalizeInterlaced : Bool := true
  penalizeDroppedFrames : Bool := true

/-- Python `round(x, 2)` (half-to-even) on the exact rational value. -/
def pyRound2 (q : ℚ) : ℚ :=
  let x := q * 100
  let f : Int := ⌊x⌋
  let frac := x - f
  let r : Int :=
    if frac < 1 / 2 then f
    else if frac > 1 / 2 then f + 1
    else if f % 2 = 0 then f else f + 1
  (r : ℚ) / 100

/-- Embedding of `_calculate_stream_score`: `0.0` for dead streams, else
the weighted sum of the bitrate, resolution, fps, codec and error
sub-scores, rounded to two decimals. -/
def calculateStreamScore (cfg : ScoringConfig) (sd : StreamData) : ℚ :=
  if isStreamDead sd then 0
  else
    let bitrateAdd : ℚ :=
      match sd.bitrate_kbps with
      | some (.num q) =>
          if q > 0 then min (q / 8000) 1 * cfg.wBitrate.getD (3 / 10) else 0
      | _ => 0
    let resolution := sd.resolution.getD "N/A"
    let resolutionScore : ℚ :=
      if strContains resolution "x" then
        match splitOnChar 'x' resolution.data with
        | [w, h] =>
            match pythonIntOfChars w, pythonIntOfChars h with
            | some _, some hv =>
                if hv ≥ 1080 then 1
                else if hv ≥ 720 then 7 / 10
                else if hv ≥ 576 then 1 / 2
                else 3 / 10
            | _, _ => 0
        | _ => 0
      else 0
    let fpsAdd : ℚ :=
      match sd.fps with
      | some f => if f > 0 then min (f / 60) 1 * cfg.wFps.getD (3 / 20) else 0
      | none => 0
    let codec := strLower (sd.video_codec.getD "")
    let codecScore : ℚ :=
      if codec ≠ "" then
        if strContains codec "h265" || strContains codec "hevc" then
          if cfg.preferH265 then 1 else 8 / 10
        else if strContains codec "h264" || strContains codec "avc" then
          if cfg.preferH265 then 8 / 10 else 1
        else if codec ≠ "n/a" then 1 / 2
        else 0
      else 0
    let e1 : ℚ := 1
    let e2 := if sd.status ≠ some "OK" then e1 - 1 / 2 else e1
    let e3 := if sd.err_decode then e2 - 1 / 5 else e2
    let e4 := if sd.err_discontinuity then e3 - 1 / 5 else e3
    let e5 := if sd.err_timeout then e4 - 3 / 10 else e4
    let e6 :=
      if cfg.penalizeInterlaced &&
          strContains (strLower (sd.interlaced_status.getD "N/A"))
            "interlaced" then e5 - 1 / 10
      else e5
    let e7 :=
      if cfg.penalizeDroppedFrames then
        let dropped := sd.frames_dropped.getD 0
        let decoded := sd.frames_decoded.getD 0
        if decoded > 0 then
          let dropRate := dropped / decoded
          if dropRate > 1 / 100 then e6 - min (dropRate * 5) (3 / 10) else e6
        else e6
      else e6
    let errorScore := max e7 0
    pyRound2 (bitrateAdd + resolutionScore * cfg.wResolution.getD (1 / 4) +
      fpsAdd + codecScore * cfg.wCodec.getD (1 / 10) +
      errorScore * cfg.wErrors.getD (1 / 5))

/-- A stream classified dead by its `0x0` resolution although every other
field is excellent. -/
def deadSample : StreamData :=
  { resolution := some "0x0", bitrate_kbps := some (.num 5000),
    fps := some 60, video_codec := some "hevc", status := some "OK" }

/-! ## Event-time ordering and the write safeguard:
`apply_event_time_ordering_for_channels` (lines 680-726) -/

/-- One parsed stream of a channel: id, parsed event time (seconds, `none`
when parsing failed) and the tie-break item number. Input list order is the
original channel order. -/
structure EventStream where
  id : Int
  eventTime : Option Int := none
  itemNum : Int := 999
  deriving Repr, DecidableEq

/-- Python `datetime.min` (0001-01-01 00:00:00) in seconds relative to the
epoch; the `or datetime.min` fallback key for no-time streams. -/
def dtMin : Int := -62135596800

/-- The split of the code: a stream is in the `upcoming` bucket iff it has
an event time and `(now - t).total_seconds() / 3600 < 2`; all other
streams, timed past events and no-time streams alike, fall into `past`. -/
def isUpcoming (now : Int) (s : EventStream) : Bool :=
  match s.eventTime with
  | some t => decide ((((now - t : Int) : ℚ)) / 3600 < 2)
  | none => false

/-- The sort key `(event time or datetime.min, item number)`; on the
upcoming bucket every stream has a time, so the fallback never applies
there. -/
def keyOf (s : EventStream) : Int × Int := (s.eventTime.getD dtMin, s.itemNum)

/-- Strict lexicographic comparison of sort keys. -/
def keyLt (a b : Int × Int) : Bool := a.1 < b.1 || (a.1 = b.1 && a.2 < b.2)

/-- Stable insertion used to model the stable Python `list.sort(key=...)`: a
later element is placed before the first current element it is strictly
before, hence after all elements comparing equal. Any two stable sorts by
the same key agree, so this models `list.sort` exactly. -/
def insertBy (lt : EventStream → EventStream → Bool) (x : EventStream) :
    List EventStream → List EventStream
  | [] => [x]
  | y :: ys => if lt x y then x :: y :: ys else y :: insertBy lt x ys

/-- Stable sort by the strict comparison `lt`. -/
def sortWith (lt : EventStream → EventStream → Bool)
    (l : List EventStream) : List EventStream :=
  l.foldl (fun acc x => insertBy lt x acc) []

/-- Ascending comparison: `upcoming.sort(key=(event_time, item_num))`. -/
def ascLt (x y : EventStream) : Bool := keyLt (keyOf x) (keyOf y)

/-- Descending comparison:
`past.sort(key=(event_time or datetime.min, item_num), reverse=True)`. -/
def descLt (x y : EventStream) : Bool := keyLt (keyOf y) (keyOf x)

/-- Item-number comparison: `streams_data.sort(key=item_num)` in the
no-times branch. -/
def itemLt (x y : EventStream) : Bool := x.itemNum < y.itemNum

/-- Embedding of the per-channel ordering of
`apply_event_time_ordering_for_channels`: when some stream has a time,
upcoming streams sorted ascending followed by the `past` bucket (timed past
events and no-time streams) sorted descending with the `datetime.min`
fallback key; when no stream has a time, everything sorted by item number. -/
def orderStreams (now : Int) (streams : List EventStream) :
    List EventStream :=
  let hasTimes := streams.any (fun s => s.eventTime.isSome)
  if hasTimes then
    sortWith ascLt (streams.filter (fun s => isUpcoming now s)) ++
      sortWith descLt (streams.filter (fun s => !isUpcoming now s))
  else
    sortWith itemLt streams

/-- Ordering policy as worded by the spec, for comparison: no-time streams
are appended last in their original input order instead of joining the
descending past bucket. -/
def specOrderStreams (now : Int) (streams : List EventStream) :
    List EventStream :=
  sortWith ascLt (streams.filter (fun s => isUpcoming now s)) ++
    sortWith descLt (streams.filter
      (fun s => s.eventTime.isSome && !isUpcoming now s)) ++
    streams.filter (fun s => s.eventTime.isNone)

/-- Python set equality of two id lists. -/
def sameIdSet (a b : List Int) : Bool :=
  a.all (fun x => b.contains x) && b.all (fun x => a.contains x)

/-- Embedding of the write decision at lines 712-721: no call when the
order is unchanged; otherwise the update call is issued only when the
candidate is non-empty and has exactly the original id set. -/
def decideUpdate (streamIds reorderedIds : List Int) : Option (List Int) :=
  if reorderedIds = streamIds then none
  else if reorderedIds = [] then none
  else if ¬ sameIdSet reorderedIds streamIds then none
  else some reorderedIds

/-- An upcoming stream (event time equal to now). -/
def csA : EventStream := { id := 1, eventTime := some 0, itemNum := 1 }

/-- A no-time stream with tie-break order 1, listed first. -/
def csN1 : EventStream := { id := 2, eventTime := none, itemNum := 1 }

/-- A no-time stream with tie-break order 2, listed second. -/
def csN2 : EventStream := { id := 3, eventTime := none, itemNum := 2 }

/-! ## Bitrate detection: `stream_check_utils.get_stream_bitrate`

The pure parsing core of `get_stream_bitrate`: scan the stderr lines once,
deriving the bitrate from the `Statistics: ... bytes read` line (method 1),
tracking the last `bitrate=<X>kbits/s` progress value (method 2), and —
only while no bitrate is set — from an untagged `<N> bytes read` line
(method 3); after the loop the progress value is used only if the bitrate
is still unset. `duration` is the integer `-t` duration argument. -/

/-- Characters before the first occurrence of `pat` (Python
`line.split(pat)[0]` when `pat` occurs). -/
def prefixBefore (pat : List Char) : List Char → List Char
  | [] => []
  | c :: rest =>
      if charsBegin pat (c :: rest) then [] else c :: prefixBefore pat rest

/-- Python `str.split()` (no separator): whitespace-run split, no empty
tokens. `acc` is the current token reversed. -/
def wsSplitGo : List Char → List Char → List (List Char)
  | [], acc => if acc.isEmpty then [] else [acc.reverse]
  | c :: rest, acc =>
      if c.isWhitespace then
        if acc.isEmpty then wsSplitGo rest []
        else acc.reverse :: wsSplitGo rest []
      else wsSplitGo rest (c :: acc)

/-- Python `str.split()` with no separator. -/
def wsSplit (l : List Char) : List (List Char) := wsSplitGo l []

/-- Method 1 on one line, `Except`-valued: `error` models the uncaught
`IndexError` when the text before `bytes read` has no tokens (`[-1]` of an
empty list); `ok none` models a non-Statistics line, a caught `ValueError`
from `int(...)`, or a non-positive byte count; `ok (some v)` sets the
bitrate to `bytes*8/1000/duration`. -/
def statLine (duration : Int) (line : List Char) : Except Unit (Option ℚ) :=
  if charsContain "Statistics:".data line &&
      charsContain "bytes read".data line then
    match (wsSplit (stripList (prefixBefore "bytes read".data line))).getLast? with
    | none => .error ()
    | some sizeStr =>
        match pythonIntOfChars sizeStr with
        | none => .ok none
        | some n =>
            if n > 0 ∧ duration > 0 then
              .ok (some ((n : ℚ) * 8 / 1000 / (duration : ℚ)))
            else .ok none
  else .ok none

/-- Match of the regular expression `bitrate=\s*(\d+\.?\d*)\s*kbits/s`
anchored at the start of `l`: literal, greedy whitespace, a maximal digit
run, one optional dot with a maximal digit run, greedy whitespace, literal.
(For this pattern the greedy parse equals the backtracking semantics.) -/
def matchProgressAt (l : List Char) : Option ℚ :=
  if charsBegin "bitrate=".data l then
    let r2 := (l.drop "bitrate=".data.length).dropWhile Char.isWhitespace
    let d1 := r2.takeWhile Char.isDigit
    if d1.isEmpty then none
    else
      let r3 := r2.drop d1.length
      let p :=
        match r3 with
        | '.' :: rr => (rr.takeWhile Char.isDigit, rr.dropWhile Char.isDigit)
        | _ => ([], r3)
      let r5 := p.2.dropWhile Char.isWhitespace
      if charsBegin "kbits/s".data r5 then
        some ((digitsToNat d1 : ℚ) +
          (digitsToNat p.1 : ℚ) / (10 ^ p.1.length : ℚ))
      else none
  else none

/-- `re.search` of the progress pattern: leftmost matching position. -/
def searchProgress : List Char → Option ℚ
  | [] => none
  | c :: rest => (matchProgressAt (c :: rest)).or (searchProgress rest)

/-- Match of `(\d+)\s+bytes read` anchored at the start of `l`. -/
def matchAltAt (l : List Char) : Option Nat :=
  let d := l.takeWhile Char.isDigit
  if d.isEmpty then none
  else
    let r := l.drop d.length
    let ws := r.takeWhile Char.isWhitespace
    if ws.isEmpty then none
    else if charsBegin "bytes read".data (r.drop ws.length) then
      some (digitsToNat d)
    else none

/-- `re.search` of the alternate bytes-read pattern. -/
def searchAlt : List Char → Option Nat
  | [] => none
  | c :: rest => (matchAltAt (c :: rest)).or (searchAlt rest)

/-- The value method 2 records on one line (`none` when the guard or the
regular expression does not match). -/
def progValue (line : List Char) : Option ℚ :=
  if charsContain "bitrate=".data line && charsContain "kbits/s".data line
  then searchProgress line
  else none

/-- The value method 3 would set on one line when the bitrate is unset. -/
def altValue (duration : Int) (line : List Char) : Option ℚ :=
  if charsContain "bytes read".data line &&
      !charsContain "Statistics:".data line then
    match searchAlt line with
    | some n =>
        if (n : Int) > 0 ∧ duration > 0 then
          some ((n : ℚ) * 8 / 1000 / (duration : ℚ))
        else none
    | none => none
  else none

/-- The value method 1 sets on one line (when the scan is not aborted). -/
def statValue (duration : Int) (line : List Char) : Option ℚ :=
  match statLine duration line with
  | .ok o => o
  | .error _ => none

/-- The per-line loop of `get_stream_bitrate`, carrying the
`bitrate` and `progress_bitrate` state. -/
def scanLines (duration : Int) :
    List (List Char) → Option ℚ → Option ℚ → Except Unit (Option ℚ × Option ℚ)
  | [], b, p => .ok (b, p)
  | line :: rest, b, p =>
      match statLine duration line with
      | .error _ => .error ()
      | .ok m1 =>
          let b1 := m1.or b
          let p1 := (progValue line).or p
          let b2 :=
            match b1 with
            | some v => some v
            | none => altValue duration line
          scanLines duration rest b2 p1

/-- The parsing result of `get_stream_bitrate` on the captured stderr
lines: the final bitrate (progress fallback applied) and the status. -/
def parseBitrateOutput (duration : Int) (lines : List String) :
    Option ℚ × String :=
  match scanLines duration (lines.map String.data) none none with
  | .error _ => (none, "Error")
  | .ok (b, p) => (b.or p, "OK")

/-- Last line (in list order) on which `f` yields a value. -/
def findLastV (f : List Char → Option ℚ) : List (List Char) → Option ℚ
  | [] => none
  | l :: rest => (findLastV f rest).or (f l)

/-- First line (in list order) on which `f` yields a value. -/
def findFirstV (f : List Char → Option ℚ) : List (List Char) → Option ℚ
  | [] => none
  | l :: rest => (f l).or (findFirstV f rest)

/-- Modelled from the spec: the fallback order as worded — (a) the
Statistics-derived value, then (b) the last progress value if (a) is
absent, then (c) the alternate untagged bytes-read value. -/
def specBitrateFallback (duration : Int) (lines : List String) : Option ℚ :=
  let ls := lines.map String.data
  ((findLastV (statValue duration) ls).or
    (findLastV progValue ls)).or (findFirstV (altValue duration) ls)

/-! ## Theorems -/

/-- Claim C3: while a channel id is a member of the `queued`, `in_progress`
or `completed` set, `add_channel` returns `False` and leaves the entire
queue state (FIFO contents, membership sets, statistics) unchanged, and a
repeated call does so again (idempotence). -/
theorem addChannel_member_is_noop (s : QueueState) (cid priority : Int)
    (h : setMem s.queued cid = true ∨ setMem s.inProgress cid = true ∨
      setMem s.completed cid = true) :
    addChannel s cid priority = (false, s) ∧
      addChannel (addChannel s cid priority).2 cid priority = (false, s) := by
  have hcond : ¬ (¬ setMem s.queued cid ∧ ¬ setMem s.inProgress cid ∧
      ¬ setMem s.completed cid) := by
    rcases h with h | h | h <;> simp [h]
  have h1 : addChannel s cid priority = (false, s) := by
    unfold addChannel
    exact if_neg hcond
  exact ⟨h1, by rw [h1]; exact h1⟩

/-- Witness for `addChannel_member_is_noop` at a concrete state in which
channel 7 is already in the `completed` set. -/
theorem addChannel_member_is_noop_witness :
    let s : QueueState :=
      { QueueState.init 1000 with completed := [7] }
    addChannel s 7 5 = (false, s) ∧
      addChannel (addChannel s 7 5).2 7 5 = (false, s) :=
  addChannel_member_is_noop _ 7 5 (by decide)

/-- Claim C2 is false of the code: `StreamCheckQueue` stores its entries in
`queue.Queue`, a plain FIFO, so priority values are recorded but ignored.
After enqueueing channel 1 with priority 10 and then channel 2 with the
strictly lower priority value 0, both are present, yet `get_next_channel`
returns channel 1 — the entry with the higher priority value. -/
theorem queue_ignores_priority :
    setMem ((addChannel (addChannel (QueueState.init 1000) 1 10).2
      2 0).2).queued 1 = true ∧
    setMem ((addChannel (addChannel (QueueState.init 1000) 1 10).2
      2 0).2).queued 2 = true ∧
    (getNextChannel ((addChannel (addChannel (QueueState.init 1000) 1 10).2
      2 0).2)).1 = some 1 := by
  decide

theorem alookup_eq_none_iff (k : Int) (m : TrackerMap) :
    alookup k m = none ↔ k ∉ m.map Prod.fst := by
  induction m with
  | nil => simp [alookup]
  | cons p rest ih =>
      obtain ⟨k', e⟩ := p
      by_cases h : k' = k
      · subst h; simp [alookup]
      · simp [alookup, h, ih, Ne.symm h]

theorem alookup_append_of_none {k : Int} {m : TrackerMap} (l' : TrackerMap)
    (h : alookup k m = none) : alookup k (m ++ l') = alookup k l' := by
  induction m with
  | nil => simp
  | cons p rest ih =>
      obtain ⟨k', e⟩ := p
      by_cases hk : k' = k
      · simp [alookup, hk] at h
      · simp only [alookup, hk, if_false] at h
        simp only [List.cons_append, alookup, hk, if_false]
        exact ih h

theorem alookup_setEntry_same (m : TrackerMap) (k : Int) (e : TrackerEntry) :
    alookup k (setEntry m k e) = some e := by
  induction m with
  | nil => simp [setEntry, alookup]
  | cons p rest ih =>
      obtain ⟨k', e'⟩ := p
      by_cases hk : k' = k
      · simp [setEntry, hk, alookup]
      · simp [setEntry, hk, alookup, ih]

theorem alookup_setEntry_other (m : TrackerMap) (k c : Int) (e : TrackerEntry)
    (h : c ≠ k) : alookup c (setEntry m k e) = alookup c m := by
  induction m with
  | nil => simp [setEntry, alookup, Ne.symm h]
  | cons p rest ih =>
      obtain ⟨k', e'⟩ := p
      by_cases hk : k' = k
      · subst hk
        simp [setEntry, alookup, Ne.symm h]
      · by_cases hc : k' = c
        · subst hc
          simp [setEntry, hk, alookup]
        · simp [setEntry, hk, alookup, hc, ih]

theorem setEntry_keys_of_mem (m : TrackerMap) (k : Int) (e : TrackerEntry)
    (h : (alookup k m).isSome) :
    (setEntry m k e).map Prod.fst = m.map Prod.fst := by
  induction m with
  | nil => simp [alookup] at h
  | cons p rest ih =>
      obtain ⟨k', e'⟩ := p
      by_cases hk : k' = k
      · simp [setEntry, hk]
      · simp only [alookup, hk, if_false] at h
        simp [setEntry, hk, ih h]

theorem setEntry_keys_of_not_mem (m : TrackerMap) (k : Int) (e : TrackerEntry)
    (h : alookup k m = none) :
    (setEntry m k e).map Prod.fst = m.map Prod.fst ++ [k] := by
  induction m with
  | nil => simp [setEntry]
  | cons p rest ih =>
      obtain ⟨k', e'⟩ := p
      by_cases hk : k' = k
      · simp [alookup, hk] at h
      · simp only [alookup, hk, if_false] at h
        simp [setEntry, hk, ih h]

theorem setEntry_nodup (m : TrackerMap) (k : Int) (e : TrackerEntry)
    (h : (m.map Prod.fst).Nodup) : ((setEntry m k e).map Prod.fst).Nodup := by
  cases hp : alookup k m with
  | some v =>
      rw [setEntry_keys_of_mem m k e (by simp [hp])]; exact h
  | none =>
      rw [setEntry_keys_of_not_mem m k e hp]
      have hk : k ∉ m.map Prod.fst := (alookup_eq_none_iff k m).mp hp
      simp [List.nodup_append, h, hk]

theorem flaggedIds_cons (k : Int) (e : TrackerEntry) (rest : TrackerMap) :
    flaggedIds ((k, e) :: rest) =
      (if e.needsCheck.getD false then [k] else []) ++ flaggedIds rest := by
  by_cases hf : e.needsCheck.getD false <;>
    simp [flaggedIds, List.filter_cons, hf]

theorem getAndClearGo_keys (ts : String) (max : Option Int) (cnt : Nat)
    (l : List (Int × TrackerEntry)) :
    (getAndClearGo ts max cnt l).2.map Prod.fst = l.map Prod.fst := by
  induction l generalizing cnt with
  | nil => simp [getAndClearGo]
  | cons p rest ih =>
      obtain ⟨k, e⟩ := p
      by_cases hf : e.needsCheck.getD false
      · by_cases hb : breakAfter max (cnt + 1)
        · simp [getAndClearGo, hf, hb]
        · simp [getAndClearGo, hf, hb, ih]
      · simp [getAndClearGo, hf, ih]

theorem getAndClearGo_none_ids (ts : String) (cnt : Nat)
    (l : List (Int × TrackerEntry)) :
    (getAndClearGo ts none cnt l).1 = flaggedIds l := by
  induction l generalizing cnt with
  | nil => simp [getAndClearGo, flaggedIds]
  | cons p rest ih =>
      obtain ⟨k, e⟩ := p
      by_cases hf : e.needsCheck.getD false
      · simp [getAndClearGo, hf, breakAfter, flaggedIds_cons, ih]
      · simp [getAndClearGo, hf, flaggedIds_cons, ih]

theorem getAndClearGo_take_ids (ts : String) (mx : Int) (cnt : Nat)
    (l : List (Int × TrackerEntry)) (h1 : 1 ≤ mx) (h2 : (cnt : Int) < mx) :
    (getAndClearGo ts (some mx) cnt l).1 =
      (flaggedIds l).take (mx - cnt).toNat := by
  induction l generalizing cnt with
  | nil => simp [getAndClearGo, flaggedIds]
  | cons p rest ih =>
      obtain ⟨k, e⟩ := p
      by_cases hf : e.needsCheck.getD false
      · by_cases hb : breakAfter (some mx) (cnt + 1)
        · have hmx : mx = (cnt : Int) + 1 := by
            simp only [breakAfter, Bool.and_eq_true, decide_eq_true_eq,
              bne_iff_ne, ne_eq] at hb
            omega
          have ht : (mx - cnt).toNat = 1 := by omega
          simp [getAndClearGo, hf, hb, flaggedIds_cons, ht]
        · have hlt : ((cnt : Int) + 1) < mx := by
            simp only [breakAfter, Bool.and_eq_true, decide_eq_true_eq,
              ne_eq] at hb
            push_neg at hb
            have h0 : ¬ mx = 0 := by omega
            have h3 := hb h0
            omega
          have ht : (mx - cnt).toNat = (mx - (cnt + 1)).toNat + 1 := by omega
          have ih' := ih (cnt + 1) (by exact_mod_cast hlt)
          simp [getAndClearGo, hf, hb, flaggedIds_cons, ht, ih']
      · simp [getAndClearGo, hf, flaggedIds_cons, ih cnt h2]

theorem getAndClearGo_ids_subset (ts : String) (max : Option Int) (cnt : Nat)
    (l : List (Int × TrackerEntry)) (x : Int)
    (hx : x ∈ (getAndClearGo ts max cnt l).1) : x ∈ l.map Prod.fst := by
  induction l generalizing cnt with
  | nil => simp [getAndClearGo] at hx
  | cons p rest ih =>
      obtain ⟨k, e⟩ := p
      simp only [List.map_cons, List.mem_cons]
      by_cases hf : e.needsCheck.getD false
      · by_cases hb : breakAfter max (cnt + 1)
        · simp [getAndClearGo, hf, hb] at hx
          exact Or.inl hx
        · simp [getAndClearGo, hf, hb] at hx
          rcases hx with hx | hx
          · exact Or.inl hx
          · exact Or.inr (ih (cnt + 1) hx)
      · simp [getAndClearGo, hf] at hx
        exact Or.inr (ih cnt hx)

theorem getAndClearGo_frame (ts : String) (max : Option Int) (cnt : Nat)
    (l : List (Int × TrackerEntry)) (k : Int)
    (hk : k ∉ (getAndClearGo ts max cnt l).1) :
    alookup k (getAndClearGo ts max cnt l).2 = alookup k l := by
  induction l generalizing cnt with
  | nil => simp [getAndClearGo]
  | cons p rest ih =>
      obtain ⟨k', e⟩ := p
      by_cases hf : e.needsCheck.getD false
      · by_cases hb : breakAfter max (cnt + 1)
        · have hne : ¬ k' = k := by
            simp [getAndClearGo, hf, hb] at hk
            exact fun h => hk h.symm
          simp [getAndClearGo, hf, hb, alookup, hne]
        · have hk1 : ¬ k = k' ∧ k ∉ (getAndClearGo ts max (cnt + 1) rest).1 := by
            simpa [getAndClearGo, hf, hb, not_or] using hk
          have hne : ¬ k' = k := fun h => hk1.1 h.symm
          simp [getAndClearGo, hf, hb, alookup, hne]
          exact ih (cnt + 1) hk1.2
      · have hk' : k ∉ (getAndClearGo ts max cnt rest).1 := by
          simpa [getAndClearGo, hf] using hk
        by_cases hkk : k' = k
        · simp [getAndClearGo, hf, alookup, hkk]
        · simp [getAndClearGo, hf, alookup, hkk]
          exact ih cnt hk'

theorem getAndClearGo_mem (ts : String) (max : Option Int) (cnt : Nat)
    (l : List (Int × TrackerEntry)) (hnd : (l.map Prod.fst).Nodup) (k : Int)
    (hk : k ∈ (getAndClearGo ts max cnt l).1) :
    ∃ e, alookup k l = some e ∧ e.needsCheck.getD false = true ∧
      alookup k (getAndClearGo ts max cnt l).2 =
        some { e with needsCheck := some false, queuedAt := some ts } := by
  induction l generalizing cnt with
  | nil => simp [getAndClearGo] at hk
  | cons p rest ih =>
      obtain ⟨k', e⟩ := p
      simp only [List.map_cons, List.nodup_cons] at hnd
      obtain ⟨hk'notin, hndrest⟩ := hnd
      by_cases hf : e.needsCheck.getD false
      · by_cases hb : breakAfter max (cnt + 1)
        · have hkk : k = k' := by
            simpa [getAndClearGo, hf, hb] using hk
          subst hkk
          refine ⟨e, by simp [alookup], hf, ?_⟩
          simp [getAndClearGo, hf, hb, alookup]
        · have hk' : k = k' ∨ k ∈ (getAndClearGo ts max (cnt + 1) rest).1 := by
            simpa [getAndClearGo, hf, hb] using hk
          rcases hk' with hkk | hmem
          · subst hkk
            refine ⟨e, by simp [alookup], hf, ?_⟩
            simp [getAndClearGo, hf, hb, alookup]
          · have hkr : k ∈ rest.map Prod.fst :=
              getAndClearGo_ids_subset ts max (cnt + 1) rest k hmem
            have hne : ¬ k' = k := fun h => hk'notin (h ▸ hkr)
            obtain ⟨e₀, h1, h2, h3⟩ := ih (cnt + 1) hndrest hmem
            refine ⟨e₀, by simp [alookup, hne, h1], h2, ?_⟩
            simp [getAndClearGo, hf, hb, alookup, hne, h3]
      · have hmem : k ∈ (getAndClearGo ts max cnt rest).1 := by
          simpa [getAndClearGo, hf] using hk
        have hkr : k ∈ rest.map Prod.fst :=
          getAndClearGo_ids_subset ts max cnt rest k hmem
        have hne : ¬ k' = k := fun h => hk'notin (h ▸ hkr)
        obtain ⟨e₀, h1, h2, h3⟩ := ih cnt hndrest hmem
        refine ⟨e₀, by simp [alookup, hne, h1], h2, ?_⟩
        simp [getAndClearGo, hf, alookup, hne, h3]

theorem alookup_markChannelUpdated_same (m : TrackerMap) (cid : Int)
    (ts : String) (sc : Option Int) :
    alookup cid (markChannelUpdated m cid ts sc) =
      some (updatedEntry ts sc (alookup cid m)) :=
  alookup_setEntry_same m cid _

theorem alookup_markChannelUpdated_other (m : TrackerMap) (cid c : Int)
    (ts : String) (sc : Option Int) (h : c ≠ cid) :
    alookup c (markChannelUpdated m cid ts sc) = alookup c m :=
  alookup_setEntry_other m cid c _ h

theorem alookup_markChannelsUpdated_not_mem (m : TrackerMap) (cids : List Int)
    (ts : String) (counts : List (Int × Int)) (c : Int) (h : c ∉ cids) :
    alookup c (markChannelsUpdated m cids ts counts) = alookup c m := by
  induction cids generalizing m with
  | nil => simp [markChannelsUpdated]
  | cons cid rest ih =>
      simp only [List.mem_cons, not_or] at h
      simp only [markChannelsUpdated, List.foldl_cons]
      rw [show List.foldl _ _ rest =
        markChannelsUpdated (markChannelUpdated m cid ts (alookupInt cid counts))
          rest ts counts from rfl]
      rw [ih _ h.2]
      exact alookup_markChannelUpdated_other m cid c ts _ h.1

theorem needsCheckFlag_markChannelUpdated (m : TrackerMap) (cid : Int)
    (ts : String) (sc : Option Int) (c : Int) :
    needsCheckFlag (markChannelUpdated m cid ts sc) c =
      if c = cid then true else needsCheckFlag m c := by
  by_cases h : c = cid
  · subst h
    simp [needsCheckFlag, alookup_markChannelUpdated_same, updatedEntry]
  · simp [needsCheckFlag, alookup_markChannelUpdated_other m cid c ts sc h, h]

theorem needsCheckFlag_markChannelsUpdated (m : TrackerMap) (cids : List Int)
    (ts : String) (counts : List (Int × Int)) (c : Int) :
    needsCheckFlag (markChannelsUpdated m cids ts counts) c =
      if c ∈ cids then true else needsCheckFlag m c := by
  induction cids generalizing m with
  | nil => simp [markChannelsUpdated]
  | cons cid rest ih =>
      simp only [markChannelsUpdated, List.foldl_cons]
      rw [show List.foldl _ _ rest =
        markChannelsUpdated (markChannelUpdated m cid ts (alookupInt cid counts))
          rest ts counts from rfl]
      rw [ih]
      by_cases hr : c ∈ rest
      · simp [hr]
      · by_cases hc : c = cid
        · simp [hr, hc, needsCheckFlag_markChannelUpdated]
        · simp [hr, hc, needsCheckFlag_markChannelUpdated]

theorem markChannelUpdated_nodup (m : TrackerMap) (cid : Int) (ts : String)
    (sc : Option Int) (h : (m.map Prod.fst).Nodup) :
    ((markChannelUpdated m cid ts sc).map Prod.fst).Nodup :=
  setEntry_nodup m cid _ h

theorem markChannelsUpdated_nodup (m : TrackerMap) (cids : List Int)
    (ts : String) (counts : List (Int × Int)) (h : (m.map Prod.fst).Nodup) :
    ((markChannelsUpdated m cids ts counts).map Prod.fst).Nodup := by
  induction cids generalizing m with
  | nil => simpa [markChannelsUpdated] using h
  | cons cid rest ih =>
      simp only [markChannelsUpdated, List.foldl_cons]
      exact ih _ (markChannelUpdated_nodup m cid ts _ h)

theorem mapAfter_append (m : TrackerMap) (pre ops : List TrackerOp) :
    mapAfter m (pre ++ ops) = mapAfter (mapAfter m pre) ops := by
  simp [mapAfter, List.foldl_append]

theorem mapAfter_cons (m : TrackerMap) (op : TrackerOp) (ops : List TrackerOp) :
    mapAfter m (op :: ops) = mapAfter (stepOp m op) ops := rfl

theorem stepOp_nodup (m : TrackerMap) (op : TrackerOp)
    (h : (m.map Prod.fst).Nodup) : ((stepOp m op).map Prod.fst).Nodup := by
  cases op with
  | mark cids ts counts => exact markChannelsUpdated_nodup m cids ts counts h
  | claimOp ts max =>
      simpa [stepOp, getAndClear, getAndClearGo_keys] using h

theorem mapAfter_nodup (ops : List TrackerOp) (m : TrackerMap)
    (h : (m.map Prod.fst).Nodup) : ((mapAfter m ops).map Prod.fst).Nodup := by
  induction ops generalizing m with
  | nil => simpa [mapAfter] using h
  | cons op rest ih => exact ih _ (stepOp_nodup m op h)

theorem alookup_mem (k : Int) (l : TrackerMap) (e : TrackerEntry)
    (h : alookup k l = some e) : (k, e) ∈ l := by
  induction l with
  | nil => simp [alookup] at h
  | cons p rest ih =>
      obtain ⟨k', e'⟩ := p
      by_cases hk : k' = k
      · subst hk
        simp [alookup] at h
        exact List.mem_cons.mpr (Or.inl (by simp [h]))
      · simp only [alookup, hk, if_false] at h
        simp [ih h]

theorem mem_flaggedIds_of_flag (m : TrackerMap) (c : Int)
    (h : needsCheckFlag m c = true) : c ∈ flaggedIds m := by
  unfold needsCheckFlag at h
  cases he : alookup c m with
  | none => rw [he] at h; simp at h
  | some e =>
      rw [he] at h
      have hm : (c, e) ∈ m := alookup_mem c m e he
      have : (c, e) ∈ m.filter (fun p => p.2.needsCheck.getD false) :=
        List.mem_filter.mpr ⟨hm, by simpa using h⟩
      exact List.mem_map.mpr ⟨(c, e), this, rfl⟩

theorem not_mem_claim_of_flag_false (m : TrackerMap)
    (hnd : (m.map Prod.fst).Nodup) (ts : String) (max : Option Int) (c : Int)
    (h : needsCheckFlag m c = false) : c ∉ (getAndClear m ts max).1 := by
  intro hc
  obtain ⟨e, h1, h2, _⟩ := getAndClearGo_mem ts max 0 m hnd c hc
  have ht : needsCheckFlag m c = true := by simp [needsCheckFlag, h1, h2]
  exact absurd ht (by simp [h])

theorem flag_false_after_claim_of_mem (m : TrackerMap)
    (hnd : (m.map Prod.fst).Nodup) (ts : String) (max : Option Int) (c : Int)
    (h : c ∈ (getAndClear m ts max).1) :
    needsCheckFlag (getAndClear m ts max).2 c = false := by
  obtain ⟨e, _, _, h3⟩ := getAndClearGo_mem ts max 0 m hnd c h
  simp [needsCheckFlag, getAndClear, h3]

theorem flag_false_after_claim_of_false (m : TrackerMap)
    (hnd : (m.map Prod.fst).Nodup) (ts : String) (max : Option Int) (c : Int)
    (h : needsCheckFlag m c = false) :
    needsCheckFlag (getAndClear m ts max).2 c = false := by
  have hnot := not_mem_claim_of_flag_false m hnd ts max c h
  have hfr := getAndClearGo_frame ts max 0 m c hnot
  simp only [needsCheckFlag, getAndClear] at h ⊢
  rw [hfr]
  exact h

theorem flag_stable_of_no_mark (ops : List TrackerOp) (m : TrackerMap) (c : Int)
    (hnd : (m.map Prod.fst).Nodup) (h : needsCheckFlag m c = false)
    (hno : ∀ op ∈ ops, ¬ marksChannel c op) :
    needsCheckFlag (mapAfter m ops) c = false := by
  induction ops generalizing m with
  | nil => simpa [mapAfter] using h
  | cons op rest ih =>
      rw [mapAfter_cons]
      have hnd' := stepOp_nodup m op hnd
      have hrest : ∀ op' ∈ rest, ¬ marksChannel c op' :=
        fun op' hop' => hno op' (List.mem_cons_of_mem _ hop')
      cases op with
      | mark cids ts counts =>
          have hcnot : c ∉ cids := hno (.mark cids ts counts) (by simp)
          have : needsCheckFlag (stepOp m (.mark cids ts counts)) c = false := by
            simp [stepOp, needsCheckFlag_markChannelsUpdated, hcnot, h]
          exact ih _ hnd' this hrest
      | claimOp ts max =>
          exact ih _ hnd' (flag_false_after_claim_of_false m hnd ts max c h) hrest

theorem alookup_markChannelsUpdated_mem (cids : List Int) (m : TrackerMap)
    (ts : String) (counts : List (Int × Int)) (cid : Int) (e : TrackerEntry)
    (he : alookup cid m = some e) (hmem : cid ∈ cids) :
    alookup cid (markChannelsUpdated m cids ts counts) =
      some { lastUpdate := some ts, needsCheck := some true,
             streamCount := some (alookupInt cid counts),
             checkedStreamIds := some (e.checkedStreamIds.getD []) } := by
  induction cids generalizing m e with
  | nil => simp at hmem
  | cons c0 rest ih =>
      simp only [markChannelsUpdated, List.foldl_cons]
      rw [show List.foldl _ _ rest =
        markChannelsUpdated (markChannelUpdated m c0 ts (alookupInt c0 counts))
          rest ts counts from rfl]
      by_cases h0 : c0 = cid
      · subst h0
        have h1 : alookup c0 (markChannelUpdated m c0 ts (alookupInt c0 counts)) =
            some (updatedEntry ts (alookupInt c0 counts) (some e)) := by
          rw [alookup_markChannelUpdated_same, he]
        by_cases hr : c0 ∈ rest
        · have h2 := ih _ _ h1 hr
          simpa [updatedEntry] using h2
        · rw [alookup_markChannelsUpdated_not_mem _ _ _ _ _ hr, h1]
          simp [updatedEntry]
      · have he' : alookup cid (markChannelUpdated m c0 ts (alookupInt c0 counts)) =
            some e := by
          rw [alookup_markChannelUpdated_other m c0 cid ts _ (fun hh => h0 hh.symm)]
          exact he
        have hmem' : cid ∈ rest := by
          rcases List.mem_cons.mp hmem with hh | hh
          · exact absurd hh.symm h0
          · exact hh
        exact ih _ _ he' hmem'

/-- Claim C1: `get_and_clear_channels_needing_check` returns exactly the
flagged channel ids (all of them when unbounded, the first `max` of them
under a positive cap), clears each returned channel's `needs_check` flag
and stamps its `queued_at` in the same critical section, leaves every other
channel untouched — and consequently, across any serialized trace of
tracker operations, a channel can appear in the results of two calls only
if a mark-updated event for it occurred between them, while a channel whose
flag is set is always contained in the result of the next unbounded call:
each dirty channel is claimed exactly once. -/
theorem getAndClear_exactly_once (m : TrackerMap)
    (hnd : (m.map Prod.fst).Nodup) :
    (∀ ts, (getAndClear m ts none).1 = flaggedIds m) ∧
    (∀ ts mx, 1 ≤ mx →
      (getAndClear m ts (some mx)).1 = (flaggedIds m).take mx.toNat) ∧
    (∀ ts max k, k ∈ (getAndClear m ts max).1 →
      ∃ e, alookup k m = some e ∧ e.needsCheck.getD false = true ∧
        alookup k (getAndClear m ts max).2 =
          some { e with needsCheck := some false, queuedAt := some ts }) ∧
    (∀ ts max k, k ∉ (getAndClear m ts max).1 →
      alookup k (getAndClear m ts max).2 = alookup k m) ∧
    (∀ pre ts mx mid ts' mx' c,
      c ∈ (getAndClear (mapAfter m pre) ts mx).1 →
      c ∈ (getAndClear
        (mapAfter m (pre ++ TrackerOp.claimOp ts mx :: mid)) ts' mx').1 →
      ∃ op ∈ mid, marksChannel c op) ∧
    (∀ pre ts c, needsCheckFlag (mapAfter m pre) c = true →
      c ∈ (getAndClear (mapAfter m pre) ts none).1) := by
  refine ⟨fun ts => getAndClearGo_none_ids ts 0 m, ?_, ?_, ?_, ?_, ?_⟩
  · intro ts mx hmx
    have h := getAndClearGo_take_ids ts mx 0 m hmx (by exact_mod_cast hmx)
    simpa using h
  · intro ts max k hk
    exact getAndClearGo_mem ts max 0 m hnd k hk
  · intro ts max k hk
    exact getAndClearGo_frame ts max 0 m k hk
  · intro pre ts mx mid ts' mx' c h1 h2
    by_contra hno
    push_neg at hno
    have hnd1 : ((mapAfter m pre).map Prod.fst).Nodup := mapAfter_nodup pre m hnd
    have hflag : needsCheckFlag
        (stepOp (mapAfter m pre) (TrackerOp.claimOp ts mx)) c = false :=
      flag_false_after_claim_of_mem (mapAfter m pre) hnd1 ts mx c h1
    have hnd2 : ((stepOp (mapAfter m pre) (TrackerOp.claimOp ts mx)).map
        Prod.fst).Nodup := stepOp_nodup _ _ hnd1
    have hstable : needsCheckFlag
        (mapAfter (stepOp (mapAfter m pre) (TrackerOp.claimOp ts mx)) mid)
          c = false :=
      flag_stable_of_no_mark mid _ c hnd2 hflag hno
    have hnd3 := mapAfter_nodup mid _ hnd2
    have heq : mapAfter m (pre ++ TrackerOp.claimOp ts mx :: mid) =
        mapAfter (stepOp (mapAfter m pre) (TrackerOp.claimOp ts mx)) mid := by
      rw [mapAfter_append, mapAfter_cons]
    rw [heq] at h2
    exact not_mem_claim_of_flag_false _ hnd3 ts' mx' c hstable h2
  · intro pre ts c hflag
    have h := getAndClearGo_none_ids ts 0 (mapAfter m pre)
    unfold getAndClear
    rw [h]
    exact mem_flaggedIds_of_flag _ c hflag

/-- Witness for `getAndClear_exactly_once` at a concrete two-channel map
with one flagged channel. -/
theorem getAndClear_exactly_once_witness :
    (([((5 : Int), ({ needsCheck := some true } : TrackerEntry)),
       ((6 : Int), ({ needsCheck := some false } : TrackerEntry))].map
        Prod.fst).Nodup) ∧
    (getAndClear [((5 : Int), ({ needsCheck := some true } : TrackerEntry)),
       ((6 : Int), ({ needsCheck := some false } : TrackerEntry))] "t" none).1 =
      flaggedIds [((5 : Int), ({ needsCheck := some true } : TrackerEntry)),
       ((6 : Int), ({ needsCheck := some false } : TrackerEntry))] :=
  ⟨by decide,
    (getAndClear_exactly_once _ (by decide)).1 "t"⟩

/-- Claim C9: for a channel already present in the tracker,
`mark_channel_updated` replaces the entry with exactly the fields
`last_update`, `needs_check = true`, `stream_count` and the preserved
`checked_stream_ids`; the previously stored `last_check`, `queued_at` and
`force_check` keys are dropped, so a pending force-check request is lost;
other channels are untouched; and `mark_channels_updated` does the same for
every listed channel with its stream count looked up in `stream_counts`. -/
theorem markChannelUpdated_replaces_entry (m : TrackerMap) (cid : Int)
    (ts : String) (sc : Option Int) (e : TrackerEntry)
    (he : alookup cid m = some e) :
    alookup cid (markChannelUpdated m cid ts sc) =
      some { lastUpdate := some ts, lastCheck := none, needsCheck := some true,
             forceCheck := none, streamCount := some sc,
             checkedStreamIds := some (e.checkedStreamIds.getD []),
             queuedAt := none } ∧
    (∀ c, c ≠ cid → alookup c (markChannelUpdated m cid ts sc) = alookup c m) ∧
    shouldForceCheck (markChannelUpdated m cid ts sc) cid = false ∧
    (∀ cids counts, cid ∈ cids →
      alookup cid (markChannelsUpdated m cids ts counts) =
        some { lastUpdate := some ts, lastCheck := none,
               needsCheck := some true, forceCheck := none,
               streamCount := some (alookupInt cid counts),
               checkedStreamIds := some (e.checkedStreamIds.getD []),
               queuedAt := none } ∧
      shouldForceCheck (markChannelsUpdated m cids ts counts) cid = false) := by
  have h1 : alookup cid (markChannelUpdated m cid ts sc) =
      some { lastUpdate := some ts, lastCheck := none, needsCheck := some true,
             forceCheck := none, streamCount := some sc,
             checkedStreamIds := some (e.checkedStreamIds.getD []),
             queuedAt := none } := by
    rw [alookup_markChannelUpdated_same, he]
    simp [updatedEntry]
  refine ⟨h1, ?_, ?_, ?_⟩
  · intro c hc
    exact alookup_markChannelUpdated_other m cid c ts sc hc
  · simp [shouldForceCheck, h1]
  · intro cids counts hmem
    have h2 := alookup_markChannelsUpdated_mem cids m ts counts cid e he hmem
    refine ⟨by simpa using h2, ?_⟩
    simp [shouldForceCheck, h2]

/-- Witness for `markChannelUpdated_replaces_entry` at the concrete tracker
entry `sampleEntry`. -/
theorem markChannelUpdated_replaces_entry_witness :
    alookup 3 sampleTracker = some sampleEntry ∧
    alookup 3 (markChannelUpdated sampleTracker 3 "t1" (some 7)) =
      some ({ lastUpdate := some "t1", lastCheck := none,
              needsCheck := some true, forceCheck := none,
              streamCount := some (some 7),
              checkedStreamIds := some [1, 2],
              queuedAt := none } : TrackerEntry) ∧
    shouldForceCheck (markChannelUpdated sampleTracker 3 "t1" (some 7)) 3 =
      false := by
  refine ⟨by decide, ?_, ?_⟩
  · exact (markChannelUpdated_replaces_entry sampleTracker 3 "t1" (some 7)
      sampleEntry (by decide)).1
  · exact (markChannelUpdated_replaces_entry sampleTracker 3 "t1" (some 7)
      sampleEntry (by decide)).2.2.1

theorem abs_div_sixty_le_ten_iff (a b : Int) :
    |((a : ℚ) - (b : ℚ)) / 60| ≤ 10 ↔ |a - b| ≤ 600 := by
  rw [← Int.cast_sub, abs_div, show |(60 : ℚ)| = 60 by norm_num,
    div_le_iff₀ (by norm_num : (0 : ℚ) < 60),
    show (10 : ℚ) * 60 = 600 by norm_num, ← Int.cast_abs]
  constructor <;> intro h <;> exact_mod_cast h

/-- Claim C4: with the schedule enabled and an eligible pipeline mode, the
cron check launches the Global Action iff either no `last_global_check` is
recorded and `now` is within ±10 minutes (600 seconds) of the previous
scheduled instant, or a `last_global_check` is recorded and the previous
scheduled instant is strictly after it. Marking the run at any time not
before the previous scheduled instant then blocks every further run of the
same interval, and the spec example holds: cron `0 3 * * *` (previous
instant 03:00) fires at 03:05 and not at 03:15 on a fresh start. -/
theorem checkGlobalSchedule_fires_iff (enabled : Bool) (mode : String)
    (now prevScheduled : Int) (lastGlobal : Option Int)
    (hen : enabled = true) (hmode : mode ∈ globalEligibleModes) :
    (shouldRunGlobalAction enabled mode now prevScheduled lastGlobal = true ↔
      (lastGlobal = none ∧ |now - prevScheduled| ≤ 600) ∨
      (∃ lc, lastGlobal = some lc ∧ lc < prevScheduled)) ∧
    (∀ tMark now2, prevScheduled ≤ tMark →
      shouldRunGlobalAction enabled mode now2 prevScheduled (some tMark) =
        false) ∧
    shouldRunGlobalAction true "pipeline_1_5" (3 * 3600 + 300) (3 * 3600)
      none = true ∧
    shouldRunGlobalAction true "pipeline_1_5" (3 * 3600 + 900) (3 * 3600)
      none = false := by
  refine ⟨?_, ?_,
    by norm_num [shouldRunGlobalAction, globalEligibleModes],
    by norm_num [shouldRunGlobalAction, globalEligibleModes]⟩
  · cases lastGlobal with
    | none =>
        simp [shouldRunGlobalAction, hen, hmode, abs_div_sixty_le_ten_iff]
    | some lc =>
        simp [shouldRunGlobalAction, hen, hmode]
  · intro tMark now2 hle
    simp [shouldRunGlobalAction, hen, hmode]
    omega

/-- Witness for `checkGlobalSchedule_fires_iff` at the concrete fresh-start
inputs of the spec example. -/
theorem checkGlobalSchedule_fires_iff_witness :
    (shouldRunGlobalAction true "pipeline_1_5" (3 * 3600 + 300) (3 * 3600)
        none = true ↔
      ((none : Option Int) = none ∧
        |(3 * 3600 + 300 : Int) - 3 * 3600| ≤ 600) ∨
      (∃ lc, (none : Option Int) = some lc ∧ lc < 3 * 3600)) ∧
    (∀ tMark now2, (3 * 3600 : Int) ≤ tMark →
      shouldRunGlobalAction true "pipeline_1_5" now2 (3 * 3600) (some tMark) =
        false) ∧
    shouldRunGlobalAction true "pipeline_1_5" (3 * 3600 + 300) (3 * 3600)
      none = true ∧
    shouldRunGlobalAction true "pipeline_1_5" (3 * 3600 + 900) (3 * 3600)
      none = false :=
  checkGlobalSchedule_fires_iff true "pipeline_1_5" (3 * 3600 + 300)
    (3 * 3600) none rfl (by decide)

theorem olookup_setKey_same (m : List (String × JVal)) (k : String)
    (v : JVal) : olookup k (setKey m k v) = some v := by
  induction m with
  | nil => simp [setKey, olookup]
  | cons p rest ih =>
      obtain ⟨k', v'⟩ := p
      by_cases hk : k' = k
      · simp [setKey, hk, olookup]
      · simp [setKey, hk, olookup, ih]

theorem olookup_setKey_other (m : List (String × JVal)) (k c : String)
    (v : JVal) (h : c ≠ k) : olookup c (setKey m k v) = olookup c m := by
  induction m with
  | nil => simp [setKey, olookup, Ne.symm h]
  | cons p rest ih =>
      obtain ⟨k', v'⟩ := p
      by_cases hk : k' = k
      · subst hk
        simp [setKey, olookup, Ne.symm h]
      · by_cases hc : k' = c
        · subst hc
          simp [setKey, hk, olookup]
        · simp [setKey, hk, olookup, hc, ih]

theorem olookup_shallowUpdate_not_mem (updates base : List (String × JVal))
    (k : String) (h : k ∉ updates.map Prod.fst) :
    olookup k (shallowUpdate base updates) = olookup k base := by
  induction updates generalizing base with
  | nil => simp [shallowUpdate]
  | cons p rest ih =>
      obtain ⟨k0, v0⟩ := p
      simp only [List.map_cons, List.mem_cons, not_or] at h
      simp only [shallowUpdate, List.foldl_cons]
      rw [show List.foldl _ _ rest = shallowUpdate (setKey base k0 v0) rest
        from rfl]
      rw [ih _ h.2]
      exact olookup_setKey_other base k0 k v0 (fun hh => h.1 hh)

theorem olookup_shallowUpdate_mem (updates : List (String × JVal)) :
    ∀ base k v, (updates.map Prod.fst).Nodup → (k, v) ∈ updates →
      olookup k (shallowUpdate base updates) = some v := by
  induction updates with
  | nil =>
      intro base k v _ hkv
      simp at hkv
  | cons p rest ih =>
      intro base k v hnd hkv
      obtain ⟨k0, v0⟩ := p
      simp only [List.map_cons, List.nodup_cons] at hnd
      simp only [shallowUpdate, List.foldl_cons]
      rw [show List.foldl _ _ rest = shallowUpdate (setKey base k0 v0) rest
        from rfl]
      rcases List.mem_cons.mp hkv with hh | hh
      · injection hh with h1 h2
        subst h1
        subst h2
        rw [olookup_shallowUpdate_not_mem rest _ k hnd.1]
        exact olookup_setKey_same base k v
      · exact ih _ k v hnd.2 hh

/-- Claim C10: loading a config file merges it with the defaults only at
the top level — a key present in the file replaces the whole default value
(`dict.update`), a key absent keeps the default — so a file containing
`scoring = (min_score only)` drops the default scoring siblings, whereas
the runtime `update` deep-merges the same input into the defaults and keeps
them. -/
theorem loadConfig_shallow_merge :
    (∀ base loaded k v, (loaded.map Prod.fst).Nodup → (k, v) ∈ loaded →
      olookup k (shallowUpdate base loaded) = some v) ∧
    (∀ loaded k, k ∉ loaded.map Prod.fst →
      olookup k (loadConfigMerge loaded) = olookup k DEFAULT_CONFIG) ∧
    olookup "scoring"
      (loadConfigMerge [("scoring", .obj [("min_score", .num (1 / 2))])]) =
        some (.obj [("min_score", .num (1 / 2))]) ∧
    olookup "scoring"
      (configUpdate DEFAULT_CONFIG
        [("scoring", .obj [("min_score", .num (1 / 2))])]) =
      some (.obj
        [("weights", .obj
           [("bitrate", .num (3 / 10)),
            ("resolution", .num (1 / 4)),
            ("fps", .num (3 / 20)),
            ("codec", .num (1 / 10)),
            ("errors", .num (1 / 5))]),
         ("min_score", .num (1 / 2)),
         ("prefer_h265", .bool true),
         ("penalize_interlaced", .bool true),
         ("penalize_dropped_frames", .bool true)]) := by
  refine ⟨?_, ?_, ?_, ?_⟩
  · intro base loaded k v h1 h2
    exact olookup_shallowUpdate_mem loaded base k v h1 h2
  · intro loaded k h
    exact olookup_shallowUpdate_not_mem loaded DEFAULT_CONFIG k h
  · simp [loadConfigMerge, shallowUpdate, DEFAULT_CONFIG, setKey, olookup]
  · simp [configUpdate, deepUpdate, deepAssign, deepAssignObj,
      DEFAULT_CONFIG, setKey, olookup]

/-- Witness for `loadConfig_shallow_merge` at the concrete one-key file of
the claim. -/
theorem loadConfig_shallow_merge_witness :
    (([("scoring", JVal.obj [("min_score", JVal.num (1 / 2))])].map
       Prod.fst).Nodup) ∧
    olookup "scoring" (shallowUpdate DEFAULT_CONFIG
        [("scoring", JVal.obj [("min_score", JVal.num (1 / 2))])]) =
      some (JVal.obj [("min_score", JVal.num (1 / 2))]) :=
  ⟨by simp,
    loadConfig_shallow_merge.1 DEFAULT_CONFIG
      [("scoring", JVal.obj [("min_score", JVal.num (1 / 2))])] "scoring"
      (JVal.obj [("min_score", JVal.num (1 / 2))]) (by simp)
      (List.mem_singleton.mpr rfl)⟩

/-- Claim C5: every stream classified dead — resolution exactly `0x0`, a
parsed dimension equal to 0, or bitrate 0/unknown — scores exactly `0.0`
under every scoring configuration, regardless of all other fields; the
stated conditions each imply the dead classification. -/
theorem dead_stream_scores_zero :
    (∀ cfg sd, isStreamDead sd = true → calculateStreamScore cfg sd = 0) ∧
    (∀ sd, sd.resolution = some "0x0" → isStreamDead sd = true) ∧
    (∀ sd r w h wv hv, sd.resolution = some r → r ≠ "" → r ≠ "N/A" →
      strContains r "x" = true → splitOnChar 'x' r.data = [w, h] →
      pythonIntOfChars w = some wv → pythonIntOfChars h = some hv →
      (wv = 0 ∨ hv = 0) → isStreamDead sd = true) ∧
    (∀ sd, (sd.bitrate_kbps = none ∨ sd.bitrate_kbps = some .null ∨
        sd.bitrate_kbps = some .na ∨ sd.bitrate_kbps = some (.num 0)) →
      isStreamDead sd = true) := by
  refine ⟨?_, ?_, ?_, ?_⟩
  · intro cfg sd h
    simp [calculateStreamScore, h]
  · intro sd h
    simp [isStreamDead, h]
  · intro sd r w h wv hv hres hne1 hne2 hcon hsplit hw hh h0
    by_cases hr0 : r = "0x0"
    · subst hr0
      simp [isStreamDead, hres]
    · simp [isStreamDead, hres, hne1, hne2, hcon, hsplit, hw, hh, hr0]
      exact Or.inl h0
  · intro sd hb
    rcases hb with h | h | h | h <;> simp [isStreamDead, h]

/-- Witness for `dead_stream_scores_zero`: `deadSample` scores `0.0` with
the default scoring configuration. -/
theorem dead_stream_scores_zero_witness :
    isStreamDead deadSample = true ∧
    calculateStreamScore {} deadSample = 0 :=
  ⟨by decide, dead_stream_scores_zero.1 {} deadSample (by decide)⟩

theorem insertBy_perm (lt : EventStream → EventStream → Bool)
    (x : EventStream) (l : List EventStream) :
    (insertBy lt x l).Perm (x :: l) := by
  induction l with
  | nil => simp [insertBy]
  | cons y ys ih =>
      by_cases h : lt x y
      · simp [insertBy, h]
      · simp only [insertBy, h, if_false]
        exact (ih.cons y).trans (List.Perm.swap x y ys)

theorem sortWith_perm (lt : EventStream → EventStream → Bool)
    (l : List EventStream) : (sortWith lt l).Perm l := by
  suffices h : ∀ acc, (l.foldl (fun acc x => insertBy lt x acc) acc).Perm
      (acc ++ l) by
    simpa [sortWith] using h []
  induction l with
  | nil => intro acc; simp
  | cons x xs ih =>
      intro acc
      simp only [List.foldl_cons]
      have h1 := ih (insertBy lt x acc)
      have h2 : (insertBy lt x acc ++ xs).Perm ((x :: acc) ++ xs) :=
        (insertBy_perm lt x acc).append_right xs
      have h3 : ((x :: acc) ++ xs).Perm (acc ++ x :: xs) :=
        List.perm_middle.symm
      exact h1.trans (h2.trans h3)

theorem insertBy_pairwise (lt : EventStream → EventStream → Bool)
    (hasym : ∀ a b, lt a b = true → lt b a = false)
    (htrans : ∀ a b c, lt a b = true → lt b c = true → lt a c = true)
    (x : EventStream) (l : List EventStream)
    (hl : l.Pairwise (fun a b => lt b a = false)) :
    (insertBy lt x l).Pairwise (fun a b => lt b a = false) := by
  induction l with
  | nil => simp [insertBy]
  | cons y ys ih =>
      rcases List.pairwise_cons.mp hl with ⟨hy, hys⟩
      by_cases h : lt x y
      · simp only [insertBy, h, if_true]
        refine List.pairwise_cons.mpr ⟨?_, hl⟩
        intro z hz
        rcases List.mem_cons.mp hz with hz | hz
        · rw [hz]; exact hasym x y h
        · cases hzx : lt z x with
          | false => rfl
          | true =>
              have : lt z y = true := htrans z x y hzx h
              rw [hy z hz] at this
              cases this
      · simp only [insertBy, h, if_false]
        refine List.pairwise_cons.mpr ⟨?_, ih hys⟩
        intro z hz
        have hz' : z ∈ x :: ys := (insertBy_perm lt x ys).mem_iff.mp hz
        rcases List.mem_cons.mp hz' with hz' | hz'
        · subst hz'
          exact Bool.eq_false_iff.mpr h
        · exact hy z hz'

theorem sortWith_pairwise (lt : EventStream → EventStream → Bool)
    (hasym : ∀ a b, lt a b = true → lt b a = false)
    (htrans : ∀ a b c, lt a b = true → lt b c = true → lt a c = true)
    (l : List EventStream) :
    (sortWith lt l).Pairwise (fun a b => lt b a = false) := by
  suffices h : ∀ acc, acc.Pairwise (fun a b => lt b a = false) →
      (l.foldl (fun acc x => insertBy lt x acc) acc).Pairwise
        (fun a b => lt b a = false) by
    exact h [] (by simp)
  induction l with
  | nil => intro acc hacc; simpa using hacc
  | cons x xs ih =>
      intro acc hacc
      simp only [List.foldl_cons]
      exact ih _ (insertBy_pairwise lt hasym htrans x acc hacc)

theorem keyLt_asym (a b : Int × Int) :
    keyLt a b = true → keyLt b a = false := by
  simp only [keyLt, Bool.or_eq_true, Bool.and_eq_true, decide_eq_true_eq,
    Bool.or_eq_false_iff, Bool.and_eq_false_iff, decide_eq_false_iff_not]
  intro h
  constructor
  · omega
  · rcases h with h | h
    · left; omega
    · right; omega

theorem keyLt_trans (a b c : Int × Int) :
    keyLt a b = true → keyLt b c = true → keyLt a c = true := by
  simp only [keyLt, Bool.or_eq_true, Bool.and_eq_true, decide_eq_true_eq]
  omega

/-- Claim C7: whenever the candidate reordering has an id set different
from the input id set, or is empty while the input is not, the channel
update call is never issued (the decision is `none`, leaving the channel
untouched). -/
theorem reorder_safeguard (streamIds reorderedIds : List Int)
    (h : sameIdSet reorderedIds streamIds = false ∨
      (reorderedIds = [] ∧ streamIds ≠ [])) :
    decideUpdate streamIds reorderedIds = none := by
  rcases h with h | ⟨h1, h2⟩
  · by_cases he : reorderedIds = streamIds
    · simp [decideUpdate, he]
    · by_cases hempty : reorderedIds = []
      · simp [decideUpdate, he, hempty]
      · simp [decideUpdate, he, hempty, h]
  · have hne : reorderedIds ≠ streamIds := by
      rw [h1]
      exact fun hh => h2 hh.symm
    simp [decideUpdate, hne, h1]

/-- Witness for `reorder_safeguard`: a candidate that replaced id 2 by id 3
is refused. -/
theorem reorder_safeguard_witness :
    sameIdSet [1, 3] [1, 2] = false ∧
    decideUpdate [1, 2] [1, 3] = none :=
  ⟨by decide, reorder_safeguard [1, 2] [1, 3] (Or.inl (by decide))⟩

theorem isUpcoming_eq (now : Int) (s : EventStream) :
    isUpcoming now s =
      match s.eventTime with
      | some t => decide (now - t < 7200)
      | none => false := by
  unfold isUpcoming
  cases s.eventTime with
  | none => rfl
  | some t =>
      have hiff : ((((now - t : Int) : ℚ)) / 3600 < 2) ↔ (now - t < 7200) := by
        rw [div_lt_iff₀ (by norm_num : (0 : ℚ) < 3600),
          show (2 : ℚ) * 3600 = 7200 by norm_num]
        constructor <;> intro h <;> exact_mod_cast h
      simp only [decide_eq_decide]
      exact hiff

/-- Claim C8 as stated is false of the code: no-time streams are not
appended last in original input order — they join the `past` bucket with
the `datetime.min` key and are sorted descending by tie-break order, which
reverses `csN1, csN2` into `csN2, csN1`, unlike the order that the spec
wording produces. -/
theorem orderStreams_counterexample :
    orderStreams 0 [csA, csN1, csN2] = [csA, csN2, csN1] ∧
    specOrderStreams 0 [csA, csN1, csN2] = [csA, csN1, csN2] ∧
    ([csA, csN2, csN1] ≠ [csA, csN1, csN2]) := by
  refine ⟨?_, ?_, by decide⟩
  · simp [orderStreams, sortWith, insertBy, ascLt, descLt, keyOf, keyLt,
      dtMin, csA, csN1, csN2, isUpcoming_eq]
  · simp [specOrderStreams, sortWith, insertBy, ascLt, descLt, keyOf, keyLt,
      dtMin, csA, csN1, csN2, isUpcoming_eq]

/-- Claim C8 amended: the reordering is a permutation of the input; when
some stream has an event time the output is the upcoming bucket (event
time within the strict 2-hour trailing buffer or in the future) sorted
stably ascending by (event time, tie-break order) followed by everything
else — timed past events and no-time streams, the latter keyed by
`datetime.min` and hence last among past — sorted stably descending by
that key; when no stream has an event time the output is sorted stably
ascending by tie-break order alone. -/
theorem orderStreams_ordering (now : Int) (ss : List EventStream) :
    (orderStreams now ss).Perm ss ∧
    (ss.any (fun s => s.eventTime.isSome) = true →
      ∃ u p, orderStreams now ss = u ++ p ∧
        u.Perm (ss.filter (fun s => isUpcoming now s)) ∧
        p.Perm (ss.filter (fun s => !isUpcoming now s)) ∧
        u.Pairwise (fun a b => ascLt b a = false) ∧
        p.Pairwise (fun a b => descLt b a = false)) ∧
    (ss.any (fun s => s.eventTime.isSome) = false →
      (orderStreams now ss).Pairwise (fun a b => itemLt b a = false)) := by
  have hascAsym : ∀ a b, ascLt a b = true → ascLt b a = false :=
    fun a b h => keyLt_asym _ _ h
  have hascTrans : ∀ a b c, ascLt a b = true → ascLt b c = true →
      ascLt a c = true := fun a b c h1 h2 => keyLt_trans _ _ _ h1 h2
  have hdescAsym : ∀ a b, descLt a b = true → descLt b a = false :=
    fun a b h => keyLt_asym _ _ h
  have hdescTrans : ∀ a b c, descLt a b = true → descLt b c = true →
      descLt a c = true := fun a b c h1 h2 => keyLt_trans _ _ _ h2 h1
  have hitemAsym : ∀ a b, itemLt a b = true → itemLt b a = false := by
    intro a b h
    simp only [itemLt, decide_eq_true_eq] at h
    simp only [itemLt, decide_eq_false_iff_not]
    omega
  have hitemTrans : ∀ a b c, itemLt a b = true → itemLt b c = true →
      itemLt a c = true := by
    intro a b c h1 h2
    simp only [itemLt, decide_eq_true_eq] at h1 h2 ⊢
    omega
  refine ⟨?_, ?_, ?_⟩
  · by_cases h : ss.any (fun s => s.eventTime.isSome)
    · simp only [orderStreams, h, if_true]
      have h1 := (sortWith_perm ascLt
        (ss.filter (fun s => isUpcoming now s))).append
        (sortWith_perm descLt (ss.filter (fun s => !isUpcoming now s)))
      exact h1.trans (List.filter_append_perm _ ss)
    · simp only [orderStreams, h, if_false]
      exact sortWith_perm itemLt ss
  · intro h
    refine ⟨sortWith ascLt (ss.filter (fun s => isUpcoming now s)),
      sortWith descLt (ss.filter (fun s => !isUpcoming now s)),
      by simp [orderStreams, h], sortWith_perm _ _, sortWith_perm _ _,
      sortWith_pairwise ascLt hascAsym hascTrans _,
      sortWith_pairwise descLt hdescAsym hdescTrans _⟩
  · intro h
    simp only [orderStreams, h, if_false]
    exact sortWith_pairwise itemLt hitemAsym hitemTrans ss

/-- Witness for `orderStreams_ordering` at the concrete counterexample
input, with the has-times hypothesis discharged. -/
theorem orderStreams_ordering_witness :
    ([csA, csN1, csN2].any (fun s => s.eventTime.isSome) = true) ∧
    (∃ u p, orderStreams 0 [csA, csN1, csN2] = u ++ p ∧
      u.Perm ([csA, csN1, csN2].filter (fun s => isUpcoming 0 s)) ∧
      p.Perm ([csA, csN1, csN2].filter (fun s => !isUpcoming 0 s)) ∧
      u.Pairwise (fun a b => ascLt b a = false) ∧
      p.Pairwise (fun a b => descLt b a = false)) :=
  ⟨by decide, (orderStreams_ordering 0 [csA, csN1, csN2]).2.1 (by decide)⟩

theorem scanLines_characterize (duration : Int) (ls : List (List Char)) :
    ∀ b p : Option ℚ,
      (∀ line ∈ ls, statLine duration line ≠ .error ()) →
      scanLines duration ls b p =
        .ok ((findLastV (statValue duration) ls).or
              (b.or (findFirstV (altValue duration) ls)),
             (findLastV progValue ls).or p) := by
  induction ls with
  | nil =>
      intro b p _
      simp [scanLines, findLastV, findFirstV]
  | cons line rest ih =>
      intro b p hok
      have hline : statLine duration line ≠ .error () := hok line (by simp)
      cases hstat : statLine duration line with
      | error u => cases u; exact absurd hstat hline
      | ok m1 =>
          have hsv : statValue duration line = m1 := by
            simp [statValue, hstat]
          simp only [scanLines, hstat]
          have hb2 : (match m1.or b with
              | some v => some v
              | none => altValue duration line) =
              (m1.or b).or (altValue duration line) := by
            cases m1.or b <;> rfl
          rw [hb2, ih _ _ (fun l hl => hok l (List.mem_cons_of_mem _ hl))]
          simp only [findLastV, findFirstV, hsv, Option.or_assoc]

/-- Claim C6 as stated is false of the code: with no Statistics line
present, an untagged `<N> bytes read` line takes priority over the last
`bitrate=<X>kbits/s` progress line — the fallback order of the code is
(a) Statistics, then (c) untagged bytes read, then (b) progress — while
the claim puts (b) before (c). -/
theorem bitrate_fallback_counterexample :
    parseBitrateOutput 1 ["125 bytes read", "bitrate=9kbits/s"] =
      (some 1, "OK") ∧
    specBitrateFallback 1 ["125 bytes read", "bitrate=9kbits/s"] = some 9 ∧
    (1 : ℚ) ≠ 9 := by
  refine ⟨?_, ?_, by norm_num⟩
  · have h : parseBitrateOutput 1 ["125 bytes read", "bitrate=9kbits/s"] =
        (some ((125 : ℚ) * 8 / 1000 / 1), "OK") := by
      simp +decide [parseBitrateOutput, scanLines, statLine, progValue,
        altValue, searchAlt, matchAltAt, searchProgress, matchProgressAt,
        charsContain, charsBegin, prefixBefore, wsSplit, wsSplitGo,
        stripList, pythonIntOfChars, validDigitsU, digitsToNat, digitVal,
        Option.or]
    rw [h]
    norm_num
  · have h : specBitrateFallback 1 ["125 bytes read", "bitrate=9kbits/s"] =
        some ((9 : ℚ) + 0 / 1) := by
      simp +decide [specBitrateFallback, findLastV, findFirstV, statValue,
        statLine, progValue, altValue, searchAlt, matchAltAt,
        searchProgress, matchProgressAt, charsContain, charsBegin,
        prefixBefore, wsSplit, wsSplitGo, stripList, pythonIntOfChars,
        validDigitsU, digitsToNat, digitVal, Option.or]
    rw [h]
    norm_num

/-- Claim C6 amended: for every output whose Statistics lines do not abort
the scan, the returned bitrate is the value of the last successful
`Statistics: <N> bytes read` line (`bytes*8/1000/duration`); if there is
none, the value of the first successful untagged `<N> bytes read` line;
only if both are absent, the value of the last `bitrate=<X>kbits/s`
progress line. In particular, when both (a) and (b) are present, (a) wins. -/
theorem bitrate_priority (duration : Int) (lines : List String)
    (hok : ∀ line ∈ lines.map String.data,
      statLine duration line ≠ .error ()) :
    (parseBitrateOutput duration lines).2 = "OK" ∧
    (parseBitrateOutput duration lines).1 =
      ((findLastV (statValue duration) (lines.map String.data)).or
        (findFirstV (altValue duration) (lines.map String.data))).or
        (findLastV progValue (lines.map String.data)) := by
  have h := scanLines_characterize duration (lines.map String.data)
    none none hok
  constructor
  · simp [parseBitrateOutput, h]
  · simp [parseBitrateOutput, h, Option.or_assoc]

/-- Witness for `bitrate_priority` at the example of the spec: a Statistics line
of 18000000 bytes over a 30-second window beats a progress line claiming
4000.0, yielding 4800.0. -/
theorem bitrate_priority_witness :
    (∀ line ∈ (["Statistics: 18000000 bytes read",
        "size= 12kB time=00:00:30.00 bitrate=4000.0kbits/s"].map
          String.data),
      statLine 30 line ≠ .error ()) ∧
    (parseBitrateOutput 30 ["Statistics: 18000000 bytes read",
        "size= 12kB time=00:00:30.00 bitrate=4000.0kbits/s"]).2 = "OK" ∧
    (parseBitrateOutput 30 ["Statistics: 18000000 bytes read",
        "size= 12kB time=00:00:30.00 bitrate=4000.0kbits/s"]).1 =
      some 4800 := by
  have h1 : statLine 30 "Statistics: 18000000 bytes read".data =
      .ok (some ((18000000 : ℚ) * 8 / 1000 / 30)) := by
    simp +decide [statLine, charsContain, charsBegin, prefixBefore, wsSplit,
      wsSplitGo, stripList, pythonIntOfChars, validDigitsU, digitsToNat,
      digitVal]
  have h2 : statLine 30
      "size= 12kB time=00:00:30.00 bitrate=4000.0kbits/s".data =
      .ok none := by
    simp +decide [statLine, charsContain, charsBegin]
  have hok : ∀ line ∈ (["Statistics: 18000000 bytes read",
      "size= 12kB time=00:00:30.00 bitrate=4000.0kbits/s"].map String.data),
      statLine 30 line ≠ .error () := by
    intro line hl
    simp only [List.map_cons, List.map_nil, List.mem_cons,
      List.not_mem_nil, or_false] at hl
    rcases hl with h | h <;> rw [h]
    · rw [h1]; exact fun hc => by cases hc
    · rw [h2]; exact fun hc => by cases hc
  refine ⟨hok, (bitrate_priority 30 _ hok).1, ?_⟩
  have h : parseBitrateOutput 30 ["Statistics: 18000000 bytes read",
      "size= 12kB time=00:00:30.00 bitrate=4000.0kbits/s"] =
      (some ((18000000 : ℚ) * 8 / 1000 / 30), "OK") := by
    simp +decide [parseBitrateOutput, scanLines, statLine, progValue,
      altValue, searchAlt, matchAltAt, searchProgress, matchProgressAt,
      charsContain, charsBegin, prefixBefore, wsSplit, wsSplitGo,
      stripList, pythonIntOfChars, validDigitsU, digitsToNat, digitVal,
      Option.or]
  rw [h]
  norm_num

end StreamFlow

